import Mathlib

/-
Shallow embedding of the gitact repository's core: the event/repository
aggregation functions (calculateStats, getGrade, getTopRepos), the
public-repository ingestion loop (fetchPublicRepos), and the Bubble Tea
dashboard state machine (Model, Model.Update, nextView,
checkLoadingComplete, the notification lifecycle).

Conventions of the embedding:
  - Go `int` is Lean `Int`; Go `time.Time` is a Nat instant (`Time`), with
    `After` being strict `>` and the zero value being the least element.
  - Go `float64` scores in getGrade are embedded as rationals; every value
    the source can produce there is an integer multiple of 1/2, hence
    exactly representable in float64, so the rational model agrees with
    the float computation for all realistic (sub-2^52) counts.
  - The terminal UI sub-components from the bubbles library (list, table,
    viewport, textinput, spinner, help) are external presentation-layer
    collaborators: each is modeled by the data the core last handed to it
    (list items and title, table rows' source repos and height, viewport
    content's inputs), not by its rendering or internal cursor state.
  - Network fetching is an external collaborator: fetchPublicRepos is
    modeled over the list of successive page payloads the API returns.
-/

namespace Gitact

/-- Instant in time. Go time.Time compared with After (strict greater-than);
the zero value is minimal. -/
abbrev Time := Nat

/-- Go struct Repo (the repository reference embedded in an event). -/
structure Repo where
  Name : String
  URL : String
  deriving DecidableEq

/-- Go struct GitHubEvent. The Actor and Payload fields are never read by
the modeled core and are omitted. Field Type is named eventType because
Type is reserved in Lean. -/
structure GitHubEvent where
  eventType : String
  repo : Repo
  CreatedAt : Time
  deriving DecidableEq

/-- Go struct GitHubStats: nine named event-kind counters, an other-events
counter, and a total. -/
structure GitHubStats where
  PushEvents : Int
  IssueEvents : Int
  WatchEvents : Int
  ForkEvents : Int
  CreateEvents : Int
  DeleteEvents : Int
  PullRequestEvents : Int
  ReleaseEvents : Int
  PublicEvents : Int
  OtherEvents : Int
  TotalEvents : Int
  deriving DecidableEq

/-- Go struct RepoInfo (per-repository activity aggregate). -/
structure RepoInfo where
  Name : String
  URL : String
  CloneURL : String
  Count : Int
  LastActivity : Time
  Description : String
  deriving DecidableEq

/-- Go struct PublicRepo. -/
structure PublicRepo where
  Name : String
  FullName : String
  Description : String
  URL : String
  CloneURL : String
  Stars : Int
  Forks : Int
  Language : String
  CreatedAt : Time
  UpdatedAt : Time
  Private : Bool
  deriving DecidableEq

/-- The zero value of GitHubStats (Go var stats GitHubStats). -/
def zeroStats : GitHubStats := ⟨0, 0, 0, 0, 0, 0, 0, 0, 0, 0, 0⟩

/-- One iteration of the loop body of calculateStats: increment the total,
then the bucket selected by the event's kind tag (Go switch event.Type). -/
def bumpStats (stats : GitHubStats) (event : GitHubEvent) : GitHubStats :=
  let stats := { stats with TotalEvents := stats.TotalEvents + 1 }
  if event.eventType = "PushEvent" then { stats with PushEvents := stats.PushEvents + 1 }
  else if event.eventType = "IssuesEvent" then { stats with IssueEvents := stats.IssueEvents + 1 }
  else if event.eventType = "WatchEvent" then { stats with WatchEvents := stats.WatchEvents + 1 }
  else if event.eventType = "ForkEvent" then { stats with ForkEvents := stats.ForkEvents + 1 }
  else if event.eventType = "CreateEvent" then { stats with CreateEvents := stats.CreateEvents + 1 }
  else if event.eventType = "DeleteEvent" then { stats with DeleteEvents := stats.DeleteEvents + 1 }
  else if event.eventType = "PullRequestEvent" then { stats with PullRequestEvents := stats.PullRequestEvents + 1 }
  else if event.eventType = "ReleaseEvent" then { stats with ReleaseEvents := stats.ReleaseEvents + 1 }
  else if event.eventType = "PublicEvent" then { stats with PublicEvents := stats.PublicEvents + 1 }
  else { stats with OtherEvents := stats.OtherEvents + 1 }

/-- Go calculateStats: a single linear pass over the events. -/
def calculateStats (events : List GitHubEvent) : GitHubStats :=
  events.foldl bumpStats zeroStats

/-- Weighted activity score computed inside Go getGrade (float64 there,
exact rational here; all weights are multiples of 1/2). -/
def score (stats : GitHubStats) : ℚ :=
  (stats.PushEvents : ℚ) * 1 + (stats.PullRequestEvents : ℚ) * 3 +
  (stats.CreateEvents : ℚ) * 1 + (stats.IssueEvents : ℚ) * 1.5 +
  (stats.WatchEvents : ℚ) * 0.5

/-- Go getGrade: zero total gives F, otherwise a descending threshold
switch on the weighted score. -/
def getGrade (stats : GitHubStats) : String :=
  if stats.TotalEvents = 0 then "F"
  else if score stats ≥ 100 then "S+"
  else if score stats ≥ 70 then "S"
  else if score stats ≥ 40 then "A+"
  else if score stats ≥ 25 then "A"
  else if score stats ≥ 15 then "B+"
  else if score stats ≥ 8 then "B"
  else if score stats ≥ 3 then "C"
  else if score stats ≥ 1 then "D"
  else "F"

/-- Modelled from the claim C4 wording (the spec side of the refinement):
ascending thresholds (1,3,8,15,25,40,70,100) partition the score axis into
the nine ordinal bands (F, D, C, B, B+, A, A+, S, S+), with grade F forced
when the total event count is zero. Compared against getGrade. -/
def gradeSpec (stats : GitHubStats) : String :=
  if stats.TotalEvents = 0 then "F"
  else if score stats < 1 then "F"
  else if score stats < 3 then "D"
  else if score stats < 8 then "C"
  else if score stats < 15 then "B"
  else if score stats < 25 then "B+"
  else if score stats < 40 then "A"
  else if score stats < 70 then "A+"
  else if score stats < 100 then "S"
  else "S+"

/-- Association-list update for one event inside getTopRepos: Go's
repoCount[name]++ together with the strict-After last-activity update,
keyed by repository name (Go map, insertion order fixed here; map
iteration order is unspecified in Go and no settled property depends on
entry order). -/
def insertAgg (name : String) (createdAt : Time) :
    List (String × Int × Time) → List (String × Int × Time)
  | [] => [(name, 1, createdAt)]
  | (n, c, t) :: rest =>
      if n = name then (n, c + 1, if t < createdAt then createdAt else t) :: rest
      else (n, c, t) :: insertAgg name createdAt rest

/-- Loop body of getTopRepos' counting pass: events with an empty
repository name are skipped. -/
def addEvent (acc : List (String × Int × Time)) (event : GitHubEvent) :
    List (String × Int × Time) :=
  if event.repo.Name = "" then acc
  else insertAgg event.repo.Name event.CreatedAt acc

/-- The counting pass of getTopRepos over the whole event list. -/
def repoAggregates (events : List GitHubEvent) : List (String × Int × Time) :=
  events.foldl addEvent []

/-- Conversion of one aggregate entry into the RepoInfo record that Go
builds in the convert-to-slice loop. -/
def aggToRepoInfo (p : String × Int × Time) : RepoInfo :=
  { Name := p.1
    URL := "https://github.com/" ++ p.1
    CloneURL := "https://github.com/" ++ p.1 ++ ".git"
    Count := p.2.1
    LastActivity := p.2.2
    Description := "" }

/-- One left-to-right adjacent-swap pass of the descending bubble sort in
getTopRepos (swap when the left Count is strictly smaller). -/
def bubblePass : List RepoInfo → List RepoInfo
  | [] => []
  | [a] => [a]
  | a :: b :: rest =>
      if a.Count < b.Count then b :: bubblePass (a :: rest)
      else a :: bubblePass (b :: rest)
  termination_by l => l.length

/-- n repetitions of the bubble pass. Go's outer loop runs length-1
truncated passes (the inner bound j < len-i-1); a full pass acts
identically, because after i passes the last i positions hold the i
smallest counts in descending order, dominated by every earlier element,
so the strict-less swap condition never fires there. -/
def bubbleSortN : Nat → List RepoInfo → List RepoInfo
  | 0, l => l
  | n + 1, l => bubbleSortN n (bubblePass l)

/-- Go getTopRepos: count per repository name, convert to RepoInfo records,
bubble-sort descending by Count. -/
def getTopRepos (events : List GitHubEvent) : List RepoInfo :=
  let repos := (repoAggregates events).map aggToRepoInfo
  bubbleSortN (repos.length - 1) repos

/-- Core ingestion loop of Go fetchPublicRepos, with the HTTP collaborator
abstracted as the list of successive page payloads the API returns
(page 1, 2, ...): an empty payload stops the loop before filtering; a
payload shorter than perPage = 100 stops it after filtering and appending;
otherwise the loop requests the next page. Transport, HTTP-status and JSON
failures return an error and retain nothing in Go; the success path is
modeled. -/
def fetchPublicRepos : List (List PublicRepo) → List PublicRepo
  | [] => []
  | page :: rest =>
      if page.length = 0 then []
      else
        let kept := page.filter fun repo => !repo.Private
        if page.length < 100 then kept
        else kept ++ fetchPublicRepos rest

/-- The concatenation of the page payloads the fetchPublicRepos loop
actually consumes: everything up to and including the first empty or short
page (later pages are never requested). -/
def processedPages : List (List PublicRepo) → List PublicRepo
  | [] => []
  | page :: rest =>
      if page.length = 0 then []
      else if page.length < 100 then page
      else page ++ processedPages rest

/-- Prefix test on character lists (helper for strContains). -/
def charsStartWith : List Char → List Char → Bool
  | _, [] => true
  | [], _ :: _ => false
  | a :: as, b :: bs => a == b && charsStartWith as bs

/-- Substring occurrence test on character lists. -/
def charsContain : List Char → List Char → Bool
  | [], needle => needle.isEmpty
  | a :: rest, needle => charsStartWith (a :: rest) needle || charsContain rest needle

/-- Go strings.Contains. -/
def strContains (s sub : String) : Bool := charsContain s.data sub.data

/-- Go viewMode: the four dashboard views. -/
inductive viewMode where
  | repoListView
  | repoTableView
  | statsView
  | activityView
  deriving DecidableEq

/-- One entry of the shared bubbles list component: either a repoItem or
an activityItem wrapper (the two Go item types backing the list). -/
inductive ListItem where
  | repoItem (repo : PublicRepo)
  | activityItem (event : GitHubEvent)
  deriving DecidableEq

/-- The inputs from which renderDetailedStats builds the stats viewport
content (the rendering itself is presentation-layer). -/
structure StatsRender where
  publicRepos : List PublicRepo
  events : List GitHubEvent
  stats : GitHubStats
  deriving DecidableEq

/-- The Bubble Tea messages the modeled core handles. Errors are carried
as their message strings. reposLoadedMsg / eventsLoadedMsg are the two
fetch-completion messages; keyMsg carries the key's string form, matched
against the key bindings exactly as Go key.Matches does. -/
inductive Msg where
  | windowSize (width height : Int)
  | reposLoadedMsg (repos : List PublicRepo) (err : Option String)
  | eventsLoadedMsg (events : List GitHubEvent) (stats : GitHubStats) (err : Option String)
  | notificationMsg (message : String) (isSuccess : Bool)
  | clearNotificationMsg
  | keyMsg (key : String)
  deriving DecidableEq

/-- The fire-and-forget side-effect commands (clone/copy/open); each runs
off the event loop and later delivers one NotificationMsg. -/
inductive SideEffect where
  | cloneRepo (repo : PublicRepo)
  | copyURL (repo : PublicRepo)
  | openInBrowser (repo : PublicRepo)
  deriving DecidableEq

/-- The commands Model.Update returns. tick is tea.Tick with its delay in
seconds, delivering ClearNotificationMsg when it fires; loadData is the
batch of the two fetch commands; component stands for a command returned
by an updated presentation sub-component; blink is textinput.Blink. -/
inductive Cmd where
  | none
  | quit
  | blink
  | component
  | loadData
  | tick (seconds : Nat)
  | sideEffect (eff : SideEffect)
  deriving DecidableEq

/-- Does a command arm the notification-expiry timer? Only tea.Tick does. -/
def armsClearTimer : Cmd → Bool
  | Cmd.tick _ => true
  | _ => false

/-- Is a message a NotificationMsg? -/
def isNotificationMsg : Msg → Bool
  | Msg.notificationMsg _ _ => true
  | _ => false

/-- Go struct Model. Presentation sub-components are modeled by the data
last handed to them: listItems/listTitle/listIndex for the shared list
component, tableRepos/tableHeight for the table rows' source, and
viewportContent for the detailed-stats view inputs. searchValue is the
textinput's current value. -/
structure Model where
  username : String
  events : List GitHubEvent
  repos : List RepoInfo
  publicRepos : List PublicRepo
  stats : GitHubStats
  listItems : List ListItem
  listTitle : String
  listIndex : Nat
  tableRepos : List PublicRepo
  tableHeight : Int
  viewportContent : Option StatsRender
  helpShowAll : Bool
  searchValue : String
  searchFocused : Bool
  currentView : viewMode
  loading : Bool
  showHelp : Bool
  searchMode : Bool
  notification : String
  notifSuccess : Bool
  width : Int
  height : Int
  ready : Bool
  reposLoaded : Bool
  eventsLoaded : Bool
  deriving DecidableEq

/-- Go checkLoadingComplete: once both fetches have reported, clear
loading and set ready (never the other way). -/
def Model.checkLoadingComplete (m : Model) : Model :=
  if m.reposLoaded && m.eventsLoaded then
    { m with loading := false, ready := true }
  else m

/-- Go updateRepoList: rebuild the shared list from the public repos. -/
def Model.updateRepoList (m : Model) : Model :=
  { m with
    listItems := m.publicRepos.map ListItem.repoItem
    listTitle := "📁 Public Repositories (" ++ toString m.publicRepos.length ++ ")" }

/-- Go updateActivityList: rebuild the shared list from the events. -/
def Model.updateActivityList (m : Model) : Model :=
  { m with
    listItems := m.events.map ListItem.activityItem
    listTitle := "⚡ Recent Activity (" ++ toString m.events.length ++ " events)" }

/-- Go updateRepoTable: rebuild the table rows from the public repos with
the current height. -/
def Model.updateRepoTable (m : Model) : Model :=
  { m with tableRepos := m.publicRepos, tableHeight := m.height - 8 }

/-- Go updateTableSize: rebuild the table with the existing rows at the
new height (only when a height is known). -/
def Model.updateTableSize (m : Model) : Model :=
  if m.height > 0 then { m with tableHeight := m.height - 8 } else m

/-- Go updateStatsView: re-render the detailed stats into the viewport. -/
def Model.updateStatsView (m : Model) : Model :=
  { m with viewportContent := some ⟨m.publicRepos, m.events, m.stats⟩ }

/-- Go filterRepoList: empty query restores the unfiltered list, otherwise
keep repos whose lowercased name or description contains the lowercased
query. -/
def Model.filterRepoList (m : Model) (query : String) : Model :=
  if query = "" then m.updateRepoList
  else
    let filtered := m.publicRepos.filter fun repo =>
      strContains repo.Name.toLower query.toLower ||
      strContains repo.Description.toLower query.toLower
    { m with
      listItems := filtered.map ListItem.repoItem
      listTitle := "📁 Repositories matching \x27" ++ query ++ "\x27 (" ++
        toString filtered.length ++ ")" }

/-- Go nextView: advance currentView along the fixed ring, then rebuild
the data backing the view being entered. -/
def Model.nextView (m : Model) : Model :=
  let m' := { m with currentView :=
    match m.currentView with
    | viewMode.repoListView => viewMode.repoTableView
    | viewMode.repoTableView => viewMode.statsView
    | viewMode.statsView => viewMode.activityView
    | viewMode.activityView => viewMode.repoListView }
  match m'.currentView with
  | viewMode.repoListView => m'.updateRepoList
  | viewMode.activityView => m'.updateActivityList
  | viewMode.statsView => m'.updateStatsView
  | _ => m'

/-- The textinput collaborator consuming one key while focused: modeled as
appending single-character keys to the value. -/
def textInputUpdate (value key : String) : String :=
  if key.length = 1 then value ++ key else value

/-- Go handleSearchInput: esc/ctrl+c cancels (restores the unfiltered
list), enter submits the query, anything else goes to the textinput. -/
def Model.handleSearchInput (m : Model) (key : String) : Model × Cmd :=
  if key = "esc" ∨ key = "ctrl+c" then
    (Model.updateRepoList
      { m with searchMode := false, searchFocused := false, searchValue := "" }, Cmd.none)
  else if key = "enter" then
    (Model.filterRepoList
      { m with searchMode := false, searchFocused := false } m.searchValue, Cmd.none)
  else
    ({ m with searchValue := textInputUpdate m.searchValue key }, Cmd.component)

/-- Go list.SelectedItem on the shared list component. -/
def Model.selectedItem (m : Model) : Option ListItem := m.listItems.get? m.listIndex

/-- A key falling through every binding is consumed by the sub-component
of the current view; their internal cursor state is presentation-layer
and modeled as unchanged. -/
def Model.updateViewComponent (m : Model) (_key : String) : Model × Cmd :=
  (m, Cmd.component)

/-- Go Model.Update: the dashboard's single-step state transition. Each
branch mirrors the corresponding case of the Go type/key switch; a key
binding whose inner guard fails falls through to the current view's
sub-component, as the Go control flow does. -/
def Model.Update (m : Model) (msg : Msg) : Model × Cmd :=
  match msg with
  | Msg.windowSize w h =>
      (Model.updateTableSize { m with width := w, height := h }, Cmd.none)
  | Msg.reposLoadedMsg repos err =>
      let m1 := { m with reposLoaded := true }
      let m2 := match err with
        | some e => { m1 with
            notification := "❌ Error loading repositories: " ++ e
            notifSuccess := false }
        | none => Model.updateRepoTable (Model.updateRepoList { m1 with publicRepos := repos })
      (m2.checkLoadingComplete, Cmd.none)
  | Msg.eventsLoadedMsg events stats err =>
      let m1 := { m with eventsLoaded := true }
      let m2 := match err with
        | some e => { m1 with
            notification := "❌ Error loading activity: " ++ e
            notifSuccess := false }
        | none => Model.updateActivityList { m1 with events := events, stats := stats }
      (m2.checkLoadingComplete, Cmd.none)
  | Msg.notificationMsg message isSuccess =>
      ({ m with notification := message, notifSuccess := isSuccess }, Cmd.tick 3)
  | Msg.clearNotificationMsg =>
      ({ m with notification := "" }, Cmd.none)
  | Msg.keyMsg key =>
      if m.searchMode then m.handleSearchInput key
      else if key = "q" ∨ key = "esc" ∨ key = "ctrl+c" then (m, Cmd.quit)
      else if key = "?" then ({ m with helpShowAll := !m.helpShowAll }, Cmd.none)
      else if key = "tab" then (m.nextView, Cmd.none)
      else if key = "/" then
        if m.currentView = viewMode.repoListView then
          ({ m with searchMode := true, searchFocused := true }, Cmd.blink)
        else m.updateViewComponent key
      else if key = "r" then
        ({ m with
            loading := true
            reposLoaded := false
            eventsLoaded := false
            notification := "🔄 Refreshing data..."
            notifSuccess := true }, Cmd.loadData)
      else if key = "c" then
        if m.currentView = viewMode.repoListView ∧ 0 < m.publicRepos.length then
          match m.selectedItem with
          | some (ListItem.repoItem repo) => (m, Cmd.sideEffect (SideEffect.cloneRepo repo))
          | _ => m.updateViewComponent key
        else m.updateViewComponent key
      else if key = "x" then
        if m.currentView = viewMode.repoListView ∧ 0 < m.publicRepos.length then
          match m.selectedItem with
          | some (ListItem.repoItem repo) => (m, Cmd.sideEffect (SideEffect.copyURL repo))
          | _ => m.updateViewComponent key
        else m.updateViewComponent key
      else if key = "o" then
        if m.currentView = viewMode.repoListView ∧ 0 < m.publicRepos.length then
          match m.selectedItem with
          | some (ListItem.repoItem repo) => (m, Cmd.sideEffect (SideEffect.openInBrowser repo))
          | _ => m.updateViewComponent key
        else m.updateViewComponent key
      else m.updateViewComponent key

/-- Go NewModel: the freshly initialized dashboard model (struct literal
fields as written there, remaining Go fields zero-valued). -/
def NewModel (username : String) : Model :=
  { username := username
    events := []
    repos := []
    publicRepos := []
    stats := zeroStats
    listItems := []
    listTitle := "Loading..."
    listIndex := 0
    tableRepos := []
    tableHeight := 0
    viewportContent := Option.none
    helpShowAll := false
    searchValue := ""
    searchFocused := false
    currentView := viewMode.repoListView
    loading := true
    showHelp := false
    searchMode := false
    notification := ""
    notifSuccess := false
    width := 0
    height := 0
    ready := false
    reposLoaded := false
    eventsLoaded := false }

/-- Modelled from the claim C8 wording: the fixed four-cycle successor on
views, List to Table to Statistics to Activity and back. Compared with
what nextView does to currentView. -/
def viewSucc : viewMode → viewMode
  | viewMode.repoListView => viewMode.repoTableView
  | viewMode.repoTableView => viewMode.statsView
  | viewMode.statsView => viewMode.activityView
  | viewMode.activityView => viewMode.repoListView

/-- Every Model field except the shared list component's items and title
and the notification text (the fields that legitimately depend on which
of the two fetch completions was delivered last). -/
def coreProj (m : Model) :=
  (m.username, m.events, m.repos, m.publicRepos, m.stats, m.listIndex,
   m.tableRepos, m.tableHeight, m.viewportContent, m.helpShowAll,
   m.searchValue, m.searchFocused, m.currentView, m.loading, m.showHelp,
   m.searchMode, m.notifSuccess, m.width, m.height, m.ready,
   m.reposLoaded, m.eventsLoaded)

/-- Sum of the nine named event-kind counters of GitHubStats. -/
def sumNamedBuckets (s : GitHubStats) : Int :=
  s.PushEvents + s.IssueEvents + s.WatchEvents + s.ForkEvents + s.CreateEvents +
  s.DeleteEvents + s.PullRequestEvents + s.ReleaseEvents + s.PublicEvents

/-- Sum of all ten bucket counters (the nine named kinds plus other). -/
def sumAllBuckets (s : GitHubStats) : Int := sumNamedBuckets s + s.OtherEvents

/-- Lookup of a repository name in the aggregation association list. -/
def findAgg : List (String × Int × Time) → String → Option (Int × Time)
  | [], _ => Option.none
  | (n, c, t) :: rest, name => if n = name then some (c, t) else findAgg rest name

/-- Folding the per-name count/last-activity pair over a run of events
(specification device for characterizing findAgg after the counting
pass). -/
def accumAgg : Option (Int × Time) → List GitHubEvent → Option (Int × Time)
  | o, [] => o
  | Option.none, e :: rest => accumAgg (some (1, e.CreatedAt)) rest
  | some (c, t), e :: rest => accumAgg (some (c + 1, max t e.CreatedAt)) rest

/-- Well-formedness of the aggregation list: distinct keys, none empty. -/
def aggKeysOk (acc : List (String × Int × Time)) : Prop :=
  (acc.map Prod.fst).Nodup ∧ ∀ p ∈ acc, p.1 ≠ ""

/-- Sample push event (used in concrete witnesses). -/
def pushEv : GitHubEvent := ⟨"PushEvent", ⟨"octocat/hello", "u1"⟩, 5⟩

/-- Sample issues event on the same repository, later timestamp. -/
def issueEv : GitHubEvent := ⟨"IssuesEvent", ⟨"octocat/hello", "u1"⟩, 9⟩

/-- Sample watch event on another repository. -/
def watchEv : GitHubEvent := ⟨"WatchEvent", ⟨"octocat/world", "u2"⟩, 2⟩

/-- An event whose kind tag matches none of the nine named cases, so
calculateStats classifies it into the other bucket. -/
def otherEv : GitHubEvent := ⟨"CommitCommentEvent", ⟨"octocat/hello", "u1"⟩, 1⟩

/-- The claim C4 scenario batch: PushEvent times 3, IssuesEvent times 2,
WatchEvent times 1. -/
def sixEvents : List GitHubEvent :=
  [pushEv, pushEv, pushEv, issueEv, issueEv, watchEv]

/-- Sample private repository payload entry. -/
def privRepo : PublicRepo :=
  ⟨"secret", "octocat/secret", "", "", "", 1, 0, "Go", 0, 0, true⟩

/-- Sample public repository payload entry. -/
def pubRepo : PublicRepo :=
  ⟨"hello", "octocat/hello", "", "", "", 2, 1, "Go", 0, 0, false⟩

/-- Sample one-page raw payload mixing a private and a public entry. -/
def onePage : List (List PublicRepo) := [[privRepo, pubRepo]]

/-- A dashboard model that has completed both fetches (ready is true). -/
def readyModel : Model :=
  { NewModel "octocat" with
    ready := true
    reposLoaded := true
    eventsLoaded := true
    loading := false }

set_option maxHeartbeats 1600000 in
/-- C4: getGrade returns F whenever TotalEvents is zero and otherwise maps
the weighted score (push 1.0, pull-request 3.0, create 1.0, issue 1.5,
watch 0.5) through the fixed thresholds (1,3,8,15,25,40,70,100) onto the
nine bands (F, D, C, B, B+, A, A+, S, S+); for the scenario batch
PushEvent times 3, IssuesEvent times 2, WatchEvent times 1, the total is
6, the score is 6.5, and the grade is C. -/
theorem claim_C4_grade :
    (∀ stats : GitHubStats, getGrade stats = gradeSpec stats) ∧
    (calculateStats sixEvents).TotalEvents = 6 ∧
    score (calculateStats sixEvents) = 6.5 ∧
    getGrade (calculateStats sixEvents) = "C" := by
  have hsix : calculateStats sixEvents = ⟨3, 2, 1, 0, 0, 0, 0, 0, 0, 0, 6⟩ := by rfl
  refine ⟨?_, by rw [hsix], by norm_num [score, hsix], by norm_num [getGrade, score, hsix]⟩
  intro s
  unfold getGrade gradeSpec
  split_ifs <;> first | rfl | linarith

/-- C7: a NotificationMsg replaces the current notification immediately
and returns the 3-second tea.Tick command that will deliver
ClearNotificationMsg; ClearNotificationMsg unconditionally empties the
notification, so after notify x then notify y the firing of the first
timer leaves the notification empty. -/
theorem claim_C7_notification_race :
    ∀ (m : Model) (x y : String) (s1 s2 : Bool),
      ((m.Update (Msg.notificationMsg x s1)).1.notification = x ∧
       (m.Update (Msg.notificationMsg x s1)).1.notifSuccess = s1 ∧
       (m.Update (Msg.notificationMsg x s1)).2 = Cmd.tick 3) ∧
      (∀ m' : Model, (m'.Update Msg.clearNotificationMsg).1.notification = "") ∧
      ((((m.Update (Msg.notificationMsg x s1)).1.Update
          (Msg.notificationMsg y s2)).1.Update
          Msg.clearNotificationMsg).1.notification = "") :=
  fun _ _ _ _ _ => ⟨⟨rfl, rfl, rfl⟩, fun _ => rfl, rfl⟩

/-- C9: a fetch-completion message carrying an error changes only the
notification text, the success flag, the corresponding loaded flag and
the derived loading/ready flags; the repository working set (respectively
the event list and stats) and every other field are untouched. -/
theorem claim_C9_error_frame :
    ∀ (m : Model) (e : String) (rp : List PublicRepo) (ev : List GitHubEvent)
      (st : GitHubStats),
      (m.Update (Msg.reposLoadedMsg rp (some e))).1 =
        { m with
          reposLoaded := true
          notification := "❌ Error loading repositories: " ++ e
          notifSuccess := false
          loading := !m.eventsLoaded && m.loading
          ready := m.ready || m.eventsLoaded } ∧
      (m.Update (Msg.eventsLoadedMsg ev st (some e))).1 =
        { m with
          eventsLoaded := true
          notification := "❌ Error loading activity: " ++ e
          notifSuccess := false
          loading := !m.reposLoaded && m.loading
          ready := m.ready || m.reposLoaded } := by
  intro m e rp ev st
  constructor
  · cases hev : m.eventsLoaded <;>
      simp [Model.Update, Model.checkLoadingComplete, hev]
  · cases hrp : m.reposLoaded <;>
      simp [Model.Update, Model.checkLoadingComplete, hrp]

/-- Helper: rebuilding the repository list never changes ready. -/
theorem updateRepoList_ready (m : Model) :
    m.updateRepoList.ready = m.ready := rfl

/-- Helper: filtering the repository list never changes ready. -/
theorem filterRepoList_ready (m : Model) (q : String) :
    (m.filterRepoList q).ready = m.ready := by
  unfold Model.filterRepoList
  split_ifs <;> rfl

/-- Helper: cycling to the next view never changes ready. -/
theorem nextView_ready (m : Model) : m.nextView.ready = m.ready := by
  cases h : m.currentView <;>
    simp [Model.nextView, h, Model.updateRepoList, Model.updateActivityList,
      Model.updateStatsView]

set_option maxHeartbeats 4000000 in
/-- Helper: ready is monotone — once true, no message resets it. The
only write to ready in the source is checkLoadingComplete's
ready = true; every other branch of Update copies the field. -/
theorem update_ready_mono :
    ∀ (m : Model) (msg : Msg), m.ready = true → (m.Update msg).1.ready = true := by
  intro m msg h
  cases msg with
  | windowSize w h2 =>
      simp only [Model.Update, Model.updateTableSize]
      split_ifs <;> exact h
  | reposLoadedMsg rp e =>
      cases e <;>
        (simp only [Model.Update, Model.checkLoadingComplete, Model.updateRepoList,
          Model.updateRepoTable]
         split_ifs <;> first | rfl | exact h)
  | eventsLoadedMsg ev st e =>
      cases e <;>
        (simp only [Model.Update, Model.checkLoadingComplete, Model.updateActivityList]
         split_ifs <;> first | rfl | exact h)
  | notificationMsg s b => exact h
  | clearNotificationMsg => exact h
  | keyMsg k =>
      cases hs : m.searchMode with
      | true =>
          simp only [Model.Update]
          rw [if_pos hs]
          unfold Model.handleSearchInput
          split_ifs <;>
            first
              | exact h
              | exact (filterRepoList_ready _ _).trans h
      | false =>
          simp only [Model.Update]
          rw [if_neg (by simp [hs])]
          split_ifs <;>
            first
              | exact h
              | exact (nextView_ready _).trans h
              | (split <;> exact h)

/-- C2 (amended): delivering the refresh key to any model not in search
mode resets reposLoaded and eventsLoaded to false, sets loading, posts
the refreshing notification and re-issues both fetches, but leaves ready
unchanged — in particular, if ready was true it stays true; and ready,
once true, is preserved by every message of the dashboard, so it stays
observable forever (only checkLoadingComplete ever writes ready, and
only to true). -/
theorem claim_C2_refresh_keeps_ready :
    (∀ m : Model, m.searchMode = false →
      ((m.Update (Msg.keyMsg "r")).1.reposLoaded = false ∧
       (m.Update (Msg.keyMsg "r")).1.eventsLoaded = false ∧
       (m.Update (Msg.keyMsg "r")).1.loading = true ∧
       (m.Update (Msg.keyMsg "r")).1.ready = m.ready ∧
       (m.Update (Msg.keyMsg "r")).2 = Cmd.loadData)) ∧
    (∀ (m : Model) (msg : Msg), m.ready = true → (m.Update msg).1.ready = true) := by
  constructor
  · intro m h
    simp [Model.Update, h]
  · exact update_ready_mono

/-- C2 witness: the amended refresh behavior and the ready-monotonicity
conjunct evaluated on a concrete ready model. -/
theorem claim_C2_witness :
    ((readyModel.Update (Msg.keyMsg "r")).1.reposLoaded = false ∧
     (readyModel.Update (Msg.keyMsg "r")).1.eventsLoaded = false ∧
     (readyModel.Update (Msg.keyMsg "r")).1.loading = true ∧
     (readyModel.Update (Msg.keyMsg "r")).1.ready = readyModel.ready ∧
     (readyModel.Update (Msg.keyMsg "r")).2 = Cmd.loadData) ∧
    (readyModel.Update Msg.clearNotificationMsg).1.ready = true :=
  ⟨claim_C2_refresh_keeps_ready.1 readyModel rfl,
   claim_C2_refresh_keeps_ready.2 readyModel Msg.clearNotificationMsg rfl⟩

/-- C2 counterexample: on a ready model the refresh key does clear both
loaded flags, but ready remains true, refuting the claimed
reposLoaded = false, eventsLoaded = false, ready = false conjunction. -/
theorem claim_C2_counterexample :
    ¬ (((readyModel.Update (Msg.keyMsg "r")).1.reposLoaded = false) ∧
       ((readyModel.Update (Msg.keyMsg "r")).1.eventsLoaded = false) ∧
       ((readyModel.Update (Msg.keyMsg "r")).1.ready = false)) := by
  decide

/-- Helper: one calculateStats step increments the total and the sum of
all ten buckets by exactly one. -/
theorem bumpStats_counts (s : GitHubStats) (e : GitHubEvent) :
    (bumpStats s e).TotalEvents = s.TotalEvents + 1 ∧
    sumAllBuckets (bumpStats s e) = sumAllBuckets s + 1 := by
  unfold bumpStats sumAllBuckets sumNamedBuckets
  split_ifs <;> simp <;> ring

/-- Helper: the fold underlying calculateStats adds the batch length to
the total and to the all-buckets sum. -/
theorem foldl_bumpStats_counts :
    ∀ (E : List GitHubEvent) (s : GitHubStats),
      (E.foldl bumpStats s).TotalEvents = s.TotalEvents + E.length ∧
      sumAllBuckets (E.foldl bumpStats s) = sumAllBuckets s + E.length := by
  intro E
  induction E with
  | nil => intro s; simp
  | cons e E ih =>
      intro s
      have hb := bumpStats_counts s e
      have hi := ih (bumpStats s e)
      constructor
      · rw [List.foldl_cons, hi.1, hb.1]; push_cast [List.length_cons]; ring
      · rw [List.foldl_cons, hi.2, hb.2]; push_cast [List.length_cons]; ring

/-- C3 (amended): for every event list the computed TotalEvents equals
the list length, and the ten bucket counters — the nine named event
kinds plus the other-events bucket — sum to TotalEvents. (The nine named
buckets alone undercount whenever some event has an unrecognized kind
tag; see the counterexample.) -/
theorem claim_C3_stats_totals :
    ∀ E : List GitHubEvent,
      (calculateStats E).TotalEvents = (E.length : Int) ∧
      sumAllBuckets (calculateStats E) = (calculateStats E).TotalEvents := by
  intro E
  have h := foldl_bumpStats_counts E zeroStats
  unfold calculateStats
  refine ⟨?_, ?_⟩
  · rw [h.1]; simp [zeroStats]
  · rw [h.2, h.1]; simp [zeroStats, sumAllBuckets, sumNamedBuckets]

/-- C3 counterexample: a single event of kind CommitCommentEvent lands in
the other bucket, so the nine named event-kind counts sum to 0 while
TotalEvents is 1, refuting the claimed conjunction at this input. -/
theorem claim_C3_counterexample :
    ¬ ((calculateStats [otherEv]).TotalEvents = (([otherEv] : List GitHubEvent).length : Int) ∧
       sumNamedBuckets (calculateStats [otherEv]) = (calculateStats [otherEv]).TotalEvents) := by
  decide

set_option maxHeartbeats 4000000 in
/-- C10: the error branches of the two fetch-completion messages return
no command at all, and across every message the returned command is the
notification-expiry tea.Tick exactly when the delivered message is a
NotificationMsg — so a fetch-failure notification (or the refresh
notification) never arms the 3-second clear timer and persists until
replaced or until a ClearNotificationMsg armed by some NotificationMsg
arrives. -/
theorem claim_C10_failure_never_arms_timer :
    ∀ (m : Model) (e : String) (rp : List PublicRepo) (ev : List GitHubEvent)
      (st : GitHubStats),
      ((m.Update (Msg.reposLoadedMsg rp (some e))).2 = Cmd.none ∧
       (m.Update (Msg.eventsLoadedMsg ev st (some e))).2 = Cmd.none) ∧
      (∀ msg : Msg, armsClearTimer (m.Update msg).2 = isNotificationMsg msg) := by
  intro m e rp ev st
  refine ⟨⟨rfl, rfl⟩, ?_⟩
  intro msg
  cases msg with
  | windowSize w h => rfl
  | reposLoadedMsg rp2 e2 => rfl
  | eventsLoadedMsg ev2 st2 e2 => rfl
  | notificationMsg s b => rfl
  | clearNotificationMsg => rfl
  | keyMsg k =>
      simp only [Model.Update, Model.handleSearchInput, Model.updateViewComponent,
        isNotificationMsg]
      split_ifs <;> first | rfl | (split <;> rfl)

/-- Helper: nextView advances currentView by exactly the four-cycle
successor, whatever list rebuilding the entered view triggers. -/
theorem nextView_currentView :
    ∀ m : Model, m.nextView.currentView = viewSucc m.currentView := by
  intro m
  cases h : m.currentView <;>
    simp [Model.nextView, viewSucc, h, Model.updateRepoList,
      Model.updateActivityList, Model.updateStatsView]

/-- Helper: rebuilding the repository list never changes the view. -/
theorem updateRepoList_currentView (m : Model) :
    m.updateRepoList.currentView = m.currentView := rfl

/-- Helper: filtering the repository list never changes the view. -/
theorem filterRepoList_currentView (m : Model) (q : String) :
    (m.filterRepoList q).currentView = m.currentView := by
  unfold Model.filterRepoList
  split_ifs <;> rfl

set_option maxHeartbeats 4000000 in
/-- Helper: no message other than the tab key outside search mode ever
changes the current view, and tab advances it by the cycle successor. -/
theorem update_currentView :
    ∀ (m : Model) (msg : Msg),
      (m.Update msg).1.currentView = m.currentView ∨
      (msg = Msg.keyMsg "tab" ∧ m.searchMode = false ∧
       (m.Update msg).1.currentView = viewSucc m.currentView) := by
  intro m msg
  cases msg with
  | windowSize w h =>
      left
      simp only [Model.Update, Model.updateTableSize]
      split_ifs <;> rfl
  | reposLoadedMsg rp e =>
      left
      cases e <;>
        (simp only [Model.Update, Model.checkLoadingComplete, Model.updateRepoList,
          Model.updateRepoTable]
         split_ifs <;> rfl)
  | eventsLoadedMsg ev st e =>
      left
      cases e <;>
        (simp only [Model.Update, Model.checkLoadingComplete, Model.updateActivityList]
         split_ifs <;> rfl)
  | notificationMsg s b => left; rfl
  | clearNotificationMsg => left; rfl
  | keyMsg k =>
      cases hs : m.searchMode with
      | true =>
          left
          simp only [Model.Update, hs, if_true, Model.handleSearchInput]
          split_ifs <;>
            simp [updateRepoList_currentView, filterRepoList_currentView]
      | false =>
          by_cases hk : k = "tab"
          · subst hk
            right
            refine ⟨rfl, by simp [hs], ?_⟩
            have hstep : (m.Update (Msg.keyMsg "tab")).1 = m.nextView := by
              simp [Model.Update, hs]
            rw [hstep]
            exact nextView_currentView m
          · left
            simp only [Model.Update, hs, Model.handleSearchInput,
              Model.updateViewComponent]
            split_ifs <;>
              first
                | rfl
                | (split <;> rfl)
                | simp [updateRepoList_currentView, filterRepoList_currentView]

/-- C8: nextView realizes exactly the fixed four-cycle
RepositoryList, RepositoryTable, Statistics, ActivityFeed and back: the
successor of every view is the cycle successor, no message other than
the tab key changes the view, and from RepositoryList four applications
return to RepositoryList visiting each other view exactly once. -/
theorem claim_C8_view_cycle :
    (∀ m : Model, m.nextView.currentView = viewSucc m.currentView) ∧
    (∀ (m : Model) (msg : Msg),
      (m.Update msg).1.currentView = m.currentView ∨
      (msg = Msg.keyMsg "tab" ∧ m.searchMode = false ∧
       (m.Update msg).1.currentView = viewSucc m.currentView)) ∧
    (∀ m : Model, m.currentView = viewMode.repoListView →
      m.nextView.currentView = viewMode.repoTableView ∧
      m.nextView.nextView.currentView = viewMode.statsView ∧
      m.nextView.nextView.nextView.currentView = viewMode.activityView ∧
      m.nextView.nextView.nextView.nextView.currentView = viewMode.repoListView) := by
  refine ⟨nextView_currentView, update_currentView, ?_⟩
  intro m h
  have s1 := nextView_currentView m
  rw [h] at s1
  have s2 := nextView_currentView m.nextView
  rw [s1] at s2
  have s3 := nextView_currentView m.nextView.nextView
  rw [s2] at s3
  have s4 := nextView_currentView m.nextView.nextView.nextView
  rw [s3] at s4
  exact ⟨s1, s2, s3, s4⟩

/-- C8 witness: the four-step cycle evaluated from the freshly
initialized model, which starts in the repository list view. -/
theorem claim_C8_witness :
    (NewModel "octocat").nextView.currentView = viewMode.repoTableView ∧
    (NewModel "octocat").nextView.nextView.currentView = viewMode.statsView ∧
    (NewModel "octocat").nextView.nextView.nextView.currentView = viewMode.activityView ∧
    (NewModel "octocat").nextView.nextView.nextView.nextView.currentView =
      viewMode.repoListView :=
  claim_C8_view_cycle.2.2 (NewModel "octocat") rfl

set_option maxHeartbeats 4000000 in
/-- C1 (amended): from a freshly initialized model (both loaded flags and
ready false), delivering the two fetch-completion messages in either
order — each carrying either a success payload or an error — makes ready
true exactly upon the second delivery and not before, and the two
delivery orders agree on every Model field except the shared list
component's items and title and the notification text, which reflect
whichever message was delivered last (the two success handlers both
rebuild the one shared list, and both error handlers write the one
notification field). -/
theorem claim_C1_ready_join :
    ∀ m : Model, m.reposLoaded = false → m.eventsLoaded = false → m.ready = false →
    ∀ (rp : List PublicRepo) (erp : Option String) (ev : List GitHubEvent)
      (st : GitHubStats) (eev : Option String),
      (m.Update (Msg.reposLoadedMsg rp erp)).1.ready = false ∧
      (m.Update (Msg.eventsLoadedMsg ev st eev)).1.ready = false ∧
      ((m.Update (Msg.reposLoadedMsg rp erp)).1.Update
        (Msg.eventsLoadedMsg ev st eev)).1.ready = true ∧
      ((m.Update (Msg.eventsLoadedMsg ev st eev)).1.Update
        (Msg.reposLoadedMsg rp erp)).1.ready = true ∧
      coreProj ((m.Update (Msg.reposLoadedMsg rp erp)).1.Update
          (Msg.eventsLoadedMsg ev st eev)).1 =
        coreProj ((m.Update (Msg.eventsLoadedMsg ev st eev)).1.Update
          (Msg.reposLoadedMsg rp erp)).1 := by
  intro m h1 h2 h3 rp erp ev st eev
  cases erp <;> cases eev <;>
    simp [Model.Update, Model.checkLoadingComplete, Model.updateRepoList,
      Model.updateRepoTable, Model.updateActivityList, coreProj, h1, h2, h3]

/-- C1 witness: the amended join behavior evaluated on the freshly
initialized model with concrete success payloads. -/
theorem claim_C1_witness :
    ((NewModel "octocat").Update (Msg.reposLoadedMsg [pubRepo] Option.none)).1.ready = false ∧
    ((NewModel "octocat").Update
      (Msg.eventsLoadedMsg [pushEv] (calculateStats [pushEv]) Option.none)).1.ready = false ∧
    (((NewModel "octocat").Update (Msg.reposLoadedMsg [pubRepo] Option.none)).1.Update
      (Msg.eventsLoadedMsg [pushEv] (calculateStats [pushEv]) Option.none)).1.ready = true ∧
    (((NewModel "octocat").Update
      (Msg.eventsLoadedMsg [pushEv] (calculateStats [pushEv]) Option.none)).1.Update
      (Msg.reposLoadedMsg [pubRepo] Option.none)).1.ready = true ∧
    coreProj (((NewModel "octocat").Update (Msg.reposLoadedMsg [pubRepo] Option.none)).1.Update
        (Msg.eventsLoadedMsg [pushEv] (calculateStats [pushEv]) Option.none)).1 =
      coreProj (((NewModel "octocat").Update
        (Msg.eventsLoadedMsg [pushEv] (calculateStats [pushEv]) Option.none)).1.Update
        (Msg.reposLoadedMsg [pubRepo] Option.none)).1 :=
  claim_C1_ready_join (NewModel "octocat") rfl rfl rfl
    [pubRepo] Option.none [pushEv] (calculateStats [pushEv]) Option.none

/-- C1 counterexample: from the freshly initialized model, delivering the
two successful completions in the two orders yields different final
models — the shared list component holds activity items (title Recent
Activity) when events arrived last, and repository items (title Public
Repositories) when repositories arrived last — refuting the claimed
identical final model state. -/
theorem claim_C1_counterexample :
    ((((NewModel "octocat").Update (Msg.reposLoadedMsg [] Option.none)).1.Update
        (Msg.eventsLoadedMsg [] zeroStats Option.none)).1 ≠
     (((NewModel "octocat").Update (Msg.eventsLoadedMsg [] zeroStats Option.none)).1.Update
        (Msg.reposLoadedMsg [] Option.none)).1) := by
  decide

/-- Helper: the ingestion loop of fetchPublicRepos equals a
public-only filter of the pages it consumes. -/
theorem fetchPublicRepos_eq_filter :
    ∀ pages : List (List PublicRepo),
      fetchPublicRepos pages =
        (processedPages pages).filter (fun repo => !repo.Private) := by
  intro pages
  induction pages with
  | nil => rfl
  | cons page rest ih =>
      rw [fetchPublicRepos, processedPages]
      split_ifs with h1 h2
      · rfl
      · rfl
      · rw [List.filter_append, ih]

/-- C6: the repository set retained by the fetchPublicRepos ingestion is
exactly the public-only filter of the raw payload the loop consumes: no
retained record has the Private flag set, and every non-private entry of
the consumed payload is retained. -/
theorem claim_C6_public_only :
    ∀ pages : List (List PublicRepo),
      fetchPublicRepos pages =
        (processedPages pages).filter (fun repo => !repo.Private) ∧
      (∀ repo ∈ fetchPublicRepos pages, repo.Private = false) ∧
      (∀ repo ∈ processedPages pages, repo.Private = false →
        repo ∈ fetchPublicRepos pages) := by
  intro pages
  refine ⟨fetchPublicRepos_eq_filter pages, ?_, ?_⟩
  · intro repo hr
    rw [fetchPublicRepos_eq_filter] at hr
    simpa using (List.mem_filter.1 hr).2
  · intro repo hr hpriv
    rw [fetchPublicRepos_eq_filter]
    exact List.mem_filter.2 ⟨hr, by simp [hpriv]⟩

/-- C6 witness: the public-only invariant evaluated on a concrete
one-page payload mixing a private and a public entry. -/
theorem claim_C6_witness :
    pubRepo.Private = false ∧ pubRepo ∈ fetchPublicRepos onePage :=
  ⟨(claim_C6_public_only onePage).2.1 pubRepo (by decide),
   (claim_C6_public_only onePage).2.2 pubRepo (by decide) (by decide)⟩

/-- Helper: one bubble pass permutes the list (it only swaps adjacent
elements). -/
theorem bubblePass_perm : ∀ l : List RepoInfo, List.Perm (bubblePass l) l
  | [] => by simp [bubblePass]
  | [a] => by simp [bubblePass]
  | a :: b :: rest => by
      rw [bubblePass]
      split_ifs with h
      · exact ((bubblePass_perm (a :: rest)).cons b).trans (List.Perm.swap a b rest)
      · exact (bubblePass_perm (b :: rest)).cons a
  termination_by l => l.length

/-- Helper: the n-fold bubble pass permutes the list. -/
theorem bubbleSortN_perm :
    ∀ (n : Nat) (l : List RepoInfo), List.Perm (bubbleSortN n l) l := by
  intro n
  induction n with
  | zero => intro l; exact List.Perm.refl _
  | succ n ih => intro l; exact (ih (bubblePass l)).trans (bubblePass_perm l)

/-- Helper: a trailing element no larger than everything before it is
left in place by a bubble pass. -/
theorem bubblePass_append_min :
    ∀ (l : List RepoInfo) (mn : RepoInfo),
      (∀ y ∈ l, mn.Count ≤ y.Count) →
      bubblePass (l ++ [mn]) = bubblePass l ++ [mn]
  | [], mn, _ => by simp [bubblePass]
  | [a], mn, h => by
      have hna : ¬ a.Count < mn.Count := not_lt.2 (h a (by simp))
      simp [bubblePass, hna]
  | a :: b :: rest, mn, h => by
      have ha : ∀ y ∈ a :: rest, mn.Count ≤ y.Count := by
        intro y hy
        rcases List.mem_cons.1 hy with h1 | h1
        · exact h y (by simp [h1])
        · exact h y (by simp [h1])
      have hb : ∀ y ∈ b :: rest, mn.Count ≤ y.Count := by
        intro y hy
        rcases List.mem_cons.1 hy with h1 | h1
        · exact h y (by simp [h1])
        · exact h y (by simp [h1])
      simp only [List.cons_append]
      rw [bubblePass, bubblePass]
      split_ifs with hab
      · rw [← List.cons_append, bubblePass_append_min (a :: rest) mn ha]
        rfl
      · rw [← List.cons_append, bubblePass_append_min (b :: rest) mn hb]
        rfl
  termination_by l => l.length

/-- Helper: a dominated trailing element is left in place by any number
of bubble passes. -/
theorem bubbleSortN_append_min :
    ∀ (n : Nat) (l : List RepoInfo) (mn : RepoInfo),
      (∀ y ∈ l, mn.Count ≤ y.Count) →
      bubbleSortN n (l ++ [mn]) = bubbleSortN n l ++ [mn] := by
  intro n
  induction n with
  | zero => intro l mn h; rfl
  | succ n ih =>
      intro l mn h
      have hpass : ∀ y ∈ bubblePass l, mn.Count ≤ y.Count := fun y hy =>
        h y ((bubblePass_perm l).mem_iff.1 hy)
      calc bubbleSortN (n + 1) (l ++ [mn])
          = bubbleSortN n (bubblePass (l ++ [mn])) := rfl
        _ = bubbleSortN n (bubblePass l ++ [mn]) := by
              rw [bubblePass_append_min l mn h]
        _ = bubbleSortN n (bubblePass l) ++ [mn] := ih _ mn hpass

/-- Helper: a bubble pass carries a minimal element to the last
position. -/
theorem bubblePass_last_min :
    ∀ l : List RepoInfo, l ≠ [] →
      ∃ l2 mn, bubblePass l = l2 ++ [mn] ∧ ∀ y ∈ l, mn.Count ≤ y.Count
  | [], h => absurd rfl h
  | [a], _ => ⟨[], a, by simp [bubblePass], by intro y hy; simp at hy; simp [hy]⟩
  | a :: b :: rest, _ => by
      rw [bubblePass]
      split_ifs with hab
      · obtain ⟨l2, mn, heq, hmin⟩ := bubblePass_last_min (a :: rest) (by simp)
        refine ⟨b :: l2, mn, by rw [heq]; rfl, ?_⟩
        have hmna : mn.Count ≤ a.Count := hmin a (by simp)
        intro y hy
        rcases List.mem_cons.1 hy with h1 | h1
        · exact h1 ▸ hmna
        rcases List.mem_cons.1 h1 with h2 | h2
        · exact h2 ▸ (hmna.trans hab.le)
        · exact hmin y (by simp [h2])
      · obtain ⟨l2, mn, heq, hmin⟩ := bubblePass_last_min (b :: rest) (by simp)
        refine ⟨a :: l2, mn, by rw [heq]; rfl, ?_⟩
        have hmnb : mn.Count ≤ b.Count := hmin b (by simp)
        intro y hy
        rcases List.mem_cons.1 hy with h1 | h1
        · exact h1 ▸ (hmnb.trans (not_lt.1 hab))
        rcases List.mem_cons.1 h1 with h2 | h2
        · exact h2 ▸ hmnb
        · exact hmin y (by simp [h2])
  termination_by l => l.length

/-- Helper: length-1 bubble passes sort descending by Count (the
classical bubble-sort argument: each pass deposits a minimum at the
end of the unsorted region). -/
theorem bubbleSortN_sorted :
    ∀ (n : Nat) (l : List RepoInfo), l.length ≤ n + 1 →
      List.Pairwise (fun a b => b.Count ≤ a.Count) (bubbleSortN n l) := by
  intro n
  induction n with
  | zero =>
      intro l hl
      match l, hl with
      | [], _ => simp [bubbleSortN]
      | [a], _ => simp [bubbleSortN]
  | succ n ih =>
      intro l hl
      rcases eq_or_ne l [] with rfl | hne
      · show List.Pairwise (fun a b => b.Count ≤ a.Count) (bubbleSortN n (bubblePass []))
        rw [show bubblePass ([] : List RepoInfo) = [] by rw [bubblePass]]
        exact ih [] (by simp)
      · obtain ⟨l2, mn, heq, hmin⟩ := bubblePass_last_min l hne
        have hperm := bubblePass_perm l
        have hlen : l2.length + 1 = l.length := by
          have hl2 := hperm.length_eq
          rw [heq] at hl2
          simpa using hl2
        have hmin2 : ∀ y ∈ l2, mn.Count ≤ y.Count := fun y hy =>
          hmin y (hperm.mem_iff.1 (by rw [heq]; exact List.mem_append_left _ hy))
        have hstep : bubbleSortN (n + 1) l = bubbleSortN n l2 ++ [mn] := by
          show bubbleSortN n (bubblePass l) = _
          rw [heq, bubbleSortN_append_min n l2 mn hmin2]
        rw [hstep, List.pairwise_append]
        refine ⟨ih l2 (by omega), by simp, ?_⟩
        intro a ha b hb
        simp only [List.mem_singleton] at hb
        subst hb
        exact hmin2 a ((bubbleSortN_perm n l2).mem_iff.1 ha)

/-- Helper: the source's strict-less conditional update is the max. -/
theorem ite_lt_max (a b : Nat) : (if a < b then b else a) = max a b := by
  rcases lt_or_le a b with h | h
  · rw [if_pos h, Nat.max_eq_right h.le]
  · rw [if_neg (not_lt.2 h), Nat.max_eq_left h]

/-- Helper: how insertAgg changes a lookup — bump the hit entry, leave
every other key alone. -/
theorem findAgg_insertAgg :
    ∀ (acc : List (String × Int × Time)) (name : String) (tm : Time) (n : String),
      findAgg (insertAgg name tm acc) n =
        if n = name then
          (match findAgg acc name with
           | Option.none => some (1, tm)
           | some (c, t0) => some (c + 1, max t0 tm))
        else findAgg acc n := by
  intro acc name tm
  induction acc with
  | nil =>
      intro n
      by_cases h : n = name
      · simp [insertAgg, findAgg, h]
      · simp [insertAgg, findAgg, h, Ne.symm h]
  | cons p rest ih =>
      intro n
      obtain ⟨pn, pc, pt⟩ := p
      by_cases h1 : pn = name
      · subst h1
        by_cases h2 : n = pn
        · simp [insertAgg, findAgg, h2, ite_lt_max]
        · simp [insertAgg, findAgg, h2, Ne.symm h2]
      · by_cases h3 : pn = n
        · subst h3
          simp [insertAgg, findAgg, h1]
        · simp [insertAgg, findAgg, h1, h3, ih n]

/-- Helper: after the whole counting pass, the lookup for a non-empty
name accumulates exactly over the events carrying that name. -/
theorem findAgg_foldl :
    ∀ (E : List GitHubEvent) (acc : List (String × Int × Time)) (n : String), n ≠ "" →
      findAgg (E.foldl addEvent acc) n =
        accumAgg (findAgg acc n) (E.filter fun e => e.repo.Name == n) := by
  intro E
  induction E with
  | nil => intro acc n hn; cases hfa : findAgg acc n <;> simp [accumAgg, hfa]
  | cons e E ih =>
      intro acc n hn
      rw [List.foldl_cons, List.filter_cons]
      by_cases he : e.repo.Name = n
      · have hne : e.repo.Name ≠ "" := by rw [he]; exact hn
        have hadd : addEvent acc e = insertAgg e.repo.Name e.CreatedAt acc := by
          rw [addEvent, if_neg hne]
        rw [ih _ n hn, hadd, findAgg_insertAgg]
        rw [if_pos he.symm, if_pos (by simp [he])]
        rw [he]
        cases hfa : findAgg acc n with
        | none => simp [accumAgg]
        | some p =>
            obtain ⟨c, t⟩ := p
            simp [accumAgg]
      · have hfilter : ¬ ((e.repo.Name == n) = true) := by simp [he]
        rw [if_neg hfilter]
        by_cases hblank : e.repo.Name = ""
        · have hadd : addEvent acc e = acc := by rw [addEvent, if_pos hblank]
          rw [hadd, ih acc n hn]
        · have hadd : addEvent acc e = insertAgg e.repo.Name e.CreatedAt acc := by
            rw [addEvent, if_neg hblank]
          rw [ih _ n hn, hadd, findAgg_insertAgg, if_neg (fun hh => he hh.symm)]

/-- Helper: the accumulator starting from a known pair counts the run
length and folds the maximum timestamp. -/
theorem accumAgg_some :
    ∀ (l : List GitHubEvent) (c : Int) (t : Time),
      accumAgg (some (c, t)) l =
        some (c + l.length, l.foldl (fun a e => max a e.CreatedAt) t) := by
  intro l
  induction l with
  | nil => intro c t; simp [accumAgg]
  | cons e l ih =>
      intro c t
      have hstep : accumAgg (some (c, t)) (e :: l) =
          accumAgg (some (c + 1, max t e.CreatedAt)) l := by
        simp [accumAgg]
      rw [hstep, ih, List.foldl_cons]
      have hc : c + 1 + (l.length : Int) = c + ((e :: l).length : Int) := by
        push_cast [List.length_cons]
        ring
      rw [hc]

/-- Helper: the folded maximum dominates its seed and every element, and
is attained by the seed or by some element. -/
theorem foldl_max_bounds :
    ∀ (l : List GitHubEvent) (t0 : Time),
      t0 ≤ l.foldl (fun a e => max a e.CreatedAt) t0 ∧
      (∀ e ∈ l, e.CreatedAt ≤ l.foldl (fun a e => max a e.CreatedAt) t0) ∧
      (l.foldl (fun a e => max a e.CreatedAt) t0 = t0 ∨
        ∃ e ∈ l, l.foldl (fun a e => max a e.CreatedAt) t0 = e.CreatedAt) := by
  intro l
  induction l with
  | nil => intro t0; simp
  | cons e l ih =>
      intro t0
      rw [List.foldl_cons]
      obtain ⟨ih1, ih2, ih3⟩ := ih (max t0 e.CreatedAt)
      refine ⟨le_trans (le_max_left _ _) ih1, ?_, ?_⟩
      · intro e2 he2
        rcases List.mem_cons.1 he2 with h | h
        · subst h; exact le_trans (le_max_right _ _) ih1
        · exact ih2 e2 h
      · rcases ih3 with h | ⟨e2, he2, h⟩
        · rcases Nat.le_total e.CreatedAt t0 with hle | hle
          · exact Or.inl (by rw [h, Nat.max_eq_left hle])
          · exact Or.inr ⟨e, by simp, by rw [h, Nat.max_eq_right hle]⟩
        · exact Or.inr ⟨e2, List.mem_cons_of_mem _ he2, h⟩

/-- Helper: inserting an already-present key leaves the key list
unchanged. -/
theorem insertAgg_map_fst_mem :
    ∀ (acc : List (String × Int × Time)) (name : String) (tm : Time),
      name ∈ acc.map Prod.fst →
      (insertAgg name tm acc).map Prod.fst = acc.map Prod.fst := by
  intro acc name tm
  induction acc with
  | nil => intro h; simp at h
  | cons p rest ih =>
      intro h
      obtain ⟨pn, pc, pt⟩ := p
      by_cases h1 : pn = name
      · simp [insertAgg, h1]
      · have h2 : name ∈ rest.map Prod.fst := by
          rcases List.mem_cons.1 h with h3 | h3
          · exact absurd h3.symm h1
          · exact h3
        simp [insertAgg, h1, ih h2]

/-- Helper: inserting a fresh key appends it to the key list. -/
theorem insertAgg_map_fst_notMem :
    ∀ (acc : List (String × Int × Time)) (name : String) (tm : Time),
      name ∉ acc.map Prod.fst →
      (insertAgg name tm acc).map Prod.fst = acc.map Prod.fst ++ [name] := by
  intro acc name tm
  induction acc with
  | nil => intro h; simp [insertAgg]
  | cons p rest ih =>
      intro h
      obtain ⟨pn, pc, pt⟩ := p
      have h1 : pn ≠ name := by
        intro hc
        exact h (by simp [hc])
      have h2 : name ∉ rest.map Prod.fst := by
        intro hc
        exact h (by simp [hc])
      simp [insertAgg, h1, ih h2]

/-- Helper: insertAgg preserves well-formedness of the aggregation
list. -/
theorem insertAgg_keysOk :
    ∀ (acc : List (String × Int × Time)) (name : String) (tm : Time), name ≠ "" →
      aggKeysOk acc → aggKeysOk (insertAgg name tm acc) := by
  intro acc name tm hname h
  constructor
  · by_cases hm : name ∈ acc.map Prod.fst
    · rw [insertAgg_map_fst_mem acc name tm hm]
      exact h.1
    · rw [insertAgg_map_fst_notMem acc name tm hm]
      simp [List.nodup_append, h.1, hm]
  · intro p hp
    have hp1 : p.1 ∈ (insertAgg name tm acc).map Prod.fst := List.mem_map_of_mem _ hp
    have hkey : p.1 ∈ acc.map Prod.fst ∨ p.1 = name := by
      by_cases hm : name ∈ acc.map Prod.fst
      · rw [insertAgg_map_fst_mem acc name tm hm] at hp1
        exact Or.inl hp1
      · rw [insertAgg_map_fst_notMem acc name tm hm] at hp1
        rcases List.mem_append.1 hp1 with h2 | h2
        · exact Or.inl h2
        · exact Or.inr (by simpa using h2)
    rcases hkey with h2 | h2
    · obtain ⟨q, hq, hq1⟩ := List.mem_map.1 h2
      exact hq1 ▸ h.2 q hq
    · exact h2 ▸ hname

/-- Helper: the counting pass preserves well-formedness. -/
theorem foldl_addEvent_keysOk :
    ∀ (E : List GitHubEvent) (acc : List (String × Int × Time)),
      aggKeysOk acc → aggKeysOk (E.foldl addEvent acc) := by
  intro E
  induction E with
  | nil => intro acc h; exact h
  | cons e E ih =>
      intro acc h
      rw [List.foldl_cons]
      by_cases hblank : e.repo.Name = ""
      · rw [show addEvent acc e = acc from by rw [addEvent, if_pos hblank]]
        exact ih acc h
      · rw [show addEvent acc e = insertAgg e.repo.Name e.CreatedAt acc from by
            rw [addEvent, if_neg hblank]]
        exact ih _ (insertAgg_keysOk acc _ _ hblank h)

/-- Helper: the aggregation list is well formed. -/
theorem repoAggregates_keysOk (E : List GitHubEvent) : aggKeysOk (repoAggregates E) :=
  foldl_addEvent_keysOk E [] ⟨List.nodup_nil, by intro p hp; simp at hp⟩

/-- Helper: in a well-formed aggregation list, lookup of an entry's own
key returns its count and timestamp. -/
theorem findAgg_of_mem :
    ∀ (acc : List (String × Int × Time)), aggKeysOk acc → ∀ p ∈ acc,
      findAgg acc p.1 = some (p.2.1, p.2.2) := by
  intro acc
  induction acc with
  | nil => intro _ p hp; simp at hp
  | cons q rest ih =>
      intro h p hp
      obtain ⟨qn, qc, qt⟩ := q
      rcases List.mem_cons.1 hp with rfl | hp2
      · simp [findAgg]
      · have hnotin : qn ∉ rest.map Prod.fst := by
          have := h.1
          rw [List.map_cons, List.nodup_cons] at this
          exact this.1
        have hq : ¬ qn = p.1 := by
          intro hcontra
          exact hnotin (hcontra ▸ List.mem_map_of_mem _ hp2)
        rw [findAgg, if_neg hq]
        refine ih ⟨?_, ?_⟩ p hp2
        · have := h.1
          rw [List.map_cons, List.nodup_cons] at this
          exact this.2
        · intro r hr
          exact h.2 r (List.mem_cons_of_mem _ hr)

/-- Helper: every entry of the counting pass carries a non-empty name,
the exact number of events with that name, and their folded maximal
timestamp (attained and dominating). -/
theorem repoAggregates_mem_spec :
    ∀ (E : List GitHubEvent) (p : String × Int × Time), p ∈ repoAggregates E →
      p.1 ≠ "" ∧
      p.2.1 = ((E.filter fun e => e.repo.Name == p.1).length : Int) ∧
      (∃ e ∈ E.filter (fun e => e.repo.Name == p.1), p.2.2 = e.CreatedAt) ∧
      (∀ e ∈ E.filter (fun e => e.repo.Name == p.1), e.CreatedAt ≤ p.2.2) := by
  intro E p hp
  have hok := repoAggregates_keysOk E
  have hne : p.1 ≠ "" := hok.2 p hp
  have hfind := findAgg_of_mem _ hok p hp
  have hchar : findAgg (repoAggregates E) p.1 =
      accumAgg Option.none (E.filter fun e => e.repo.Name == p.1) := by
    have h0 := findAgg_foldl E [] p.1 hne
    rw [show findAgg ([] : List (String × Int × Time)) p.1 = Option.none from rfl] at h0
    exact h0
  rw [hfind] at hchar
  cases hfil : (E.filter fun e => e.repo.Name == p.1) with
  | nil =>
      rw [hfil] at hchar
      simp [accumAgg] at hchar
  | cons e0 l =>
      rw [hfil] at hchar
      have hstep : accumAgg Option.none (e0 :: l) =
          accumAgg (some (1, e0.CreatedAt)) l := by simp [accumAgg]
      rw [hstep, accumAgg_some] at hchar
      have hcount : p.2.1 = 1 + (l.length : Int) := by
        have := congrArg (fun o => (Option.map Prod.fst o).getD 0) hchar
        simpa using this
      have hlast : p.2.2 = l.foldl (fun a e => max a e.CreatedAt) e0.CreatedAt := by
        have := congrArg (fun o => (Option.map Prod.snd o).getD 0) hchar
        simpa using this
      obtain ⟨hb1, hb2, hb3⟩ := foldl_max_bounds l e0.CreatedAt
      refine ⟨hne, ?_, ?_, ?_⟩
      · rw [hcount]
        push_cast [List.length_cons]
        ring
      · rcases hb3 with h | ⟨e2, he2, h⟩
        · exact ⟨e0, by simp, by rw [hlast, h]⟩
        · exact ⟨e2, by simp [he2], by rw [hlast, h]⟩
      · intro e he
        rcases List.mem_cons.1 he with rfl | hmem
        · rw [hlast]; exact hb1
        · rw [hlast]; exact hb2 e hmem

/-- C5: every entry of getTopRepos has a Count never exceeding the number
of events whose repository name equals the entry's name (it equals it),
its LastActivity is the maximum CreatedAt among those events (attained
by one of them and dominating all of them), and the returned sequence is
sorted non-increasing by Count. -/
theorem claim_C5_top_repos :
    ∀ E : List GitHubEvent,
      (∀ r ∈ getTopRepos E,
        r.Count ≤ ((E.filter fun e => e.repo.Name == r.Name).length : Int) ∧
        (∀ e ∈ E, e.repo.Name = r.Name → e.CreatedAt ≤ r.LastActivity) ∧
        (∃ e ∈ E, e.repo.Name = r.Name ∧ e.CreatedAt = r.LastActivity)) ∧
      List.Pairwise (fun a b => b.Count ≤ a.Count) (getTopRepos E) := by
  intro E
  constructor
  · intro r hr
    have hperm : List.Perm (getTopRepos E) ((repoAggregates E).map aggToRepoInfo) :=
      bubbleSortN_perm _ _
    have hr2 : r ∈ (repoAggregates E).map aggToRepoInfo := hperm.mem_iff.1 hr
    obtain ⟨p, hp, rfl⟩ := List.mem_map.1 hr2
    obtain ⟨hne, hcount, ⟨e0, he0, he0t⟩, hbound⟩ := repoAggregates_mem_spec E p hp
    simp only [aggToRepoInfo]
    refine ⟨le_of_eq hcount, ?_, ?_⟩
    · intro e he hename
      exact hbound e (List.mem_filter.2 ⟨he, by simp [hename]⟩)
    · have hm := List.mem_filter.1 he0
      exact ⟨e0, hm.1, by simpa using hm.2, he0t.symm⟩
  · exact bubbleSortN_sorted _ _ (by omega)

/-- C5 witness: the per-entry properties evaluated on a one-event list,
whose single aggregate entry has count 1 and the event's timestamp. -/
theorem claim_C5_witness :
    (aggToRepoInfo ("octocat/hello", 1, 5)).Count ≤
      (([pushEv].filter fun e =>
        e.repo.Name == (aggToRepoInfo ("octocat/hello", 1, 5)).Name).length : Int) ∧
    (∃ e ∈ [pushEv], e.repo.Name = (aggToRepoInfo ("octocat/hello", 1, 5)).Name ∧
      e.CreatedAt = (aggToRepoInfo ("octocat/hello", 1, 5)).LastActivity) := by
  have h := (claim_C5_top_repos [pushEv]).1 (aggToRepoInfo ("octocat/hello", 1, 5))
    (by decide)
  exact ⟨h.1, h.2.2⟩

end Gitact
